import Mathlib

/-!
This file is a shallow embedding in Lean 4 of the vectorized built-in
function evaluator of the DEXON SQL virtual machine
(core/vm/sqlvm/runtime/functions.go), together with theorems settling the
frozen specification claims about it.

Go machine integers are modelled as Nat with explicit reductions mod 2^64
where overflow matters; bytes are Nat values kept below 256; fallible Go
code (error returns) is modelled with Except, and Go panics are modelled
as a distinct fault outcome.  Helper code of the repository that is not
part of the given source file (the type-descriptor and decimal codec
tables, the error-code enumeration, the execution context, and a few
operand helpers) is modelled from the specification; each such definition
carries a doc comment starting with "Modelled from the spec:".
-/

/-! ## Big-endian byte encoding of natural numbers -/

/-- Big-endian encoding of a natural number into exactly `w` bytes
(the value is taken mod 256^w). -/
def beBytes : Nat → Nat → List Nat
  | 0, _ => []
  | w + 1, n => n / 256 ^ w % 256 :: beBytes w n

/-- Value of a big-endian byte string. -/
def beNat : List Nat → Nat
  | [] => 0
  | b :: l => b * 256 ^ l.length + beNat l

theorem beBytes_length (w n : Nat) : (beBytes w n).length = w := by
  induction w generalizing n with
  | zero => rfl
  | succ w ih => simp [beBytes, ih]

theorem beBytes_lt (w n : Nat) : ∀ b ∈ beBytes w n, b < 256 := by
  induction w generalizing n with
  | zero => intro b hb; simp [beBytes] at hb
  | succ w ih =>
    intro b hb
    simp only [beBytes, List.mem_cons] at hb
    rcases hb with h | h
    · exact h ▸ Nat.mod_lt _ (by norm_num)
    · exact ih n b h

theorem beNat_beBytes (w n : Nat) : beNat (beBytes w n) = n % 256 ^ w := by
  induction w generalizing n with
  | zero => simp [beBytes, beNat, Nat.mod_one]
  | succ w ih =>
    have h256 : (256 : Nat) ^ (w + 1) = 256 ^ w * 256 := by ring
    rw [beBytes, beNat, ih, beBytes_length, h256, Nat.mod_mul]
    ring

theorem beNat_beBytes_of_lt {w n : Nat} (h : n < 256 ^ w) :
    beNat (beBytes w n) = n := by
  rw [beNat_beBytes, Nat.mod_eq_of_lt h]

theorem beNat_lt (l : List Nat) (h : ∀ b ∈ l, b < 256) :
    beNat l < 256 ^ l.length := by
  induction l with
  | nil => simp [beNat]
  | cons b t ih =>
    have hb : b < 256 := h b (List.mem_cons_self _ _)
    have ht : beNat t < 256 ^ t.length := ih (fun x hx => h x (List.mem_cons_of_mem _ hx))
    have hb255 : b ≤ 255 := by omega
    calc beNat (b :: t) = b * 256 ^ t.length + beNat t := rfl
      _ ≤ 255 * 256 ^ t.length + beNat t := by
          exact Nat.add_le_add_right (Nat.mul_le_mul_right _ hb255) _
      _ < 255 * 256 ^ t.length + 256 ^ t.length := by omega
      _ = 256 ^ (t.length + 1) := by ring
      _ = 256 ^ (b :: t).length := by simp

theorem beBytes_add_mul (w : Nat) : ∀ a m : Nat,
    beBytes w (a * 256 ^ w + m) = beBytes w m := by
  induction w with
  | zero => intro a m; rfl
  | succ w ih =>
    intro a m
    have h1 : a * 256 ^ (w + 1) + m = (a * 256) * 256 ^ w + m := by ring
    rw [beBytes, beBytes, h1, ih (a * 256) m]
    congr 1
    have h2 : a * 256 * 256 ^ w + m = 256 ^ w * (a * 256) + m := by ring
    rw [h2, Nat.mul_add_div (Nat.pos_pow_of_pos w (by norm_num)), Nat.add_comm,
      Nat.add_mul_mod_self_right]

theorem beBytes_beNat (l : List Nat) (h : ∀ b ∈ l, b < 256) :
    beBytes l.length (beNat l) = l := by
  induction l with
  | nil => rfl
  | cons b t ih =>
    have hb : b < 256 := h b (List.mem_cons_self _ _)
    have ht : ∀ x ∈ t, x < 256 := fun x hx => h x (List.mem_cons_of_mem _ hx)
    have htlt : beNat t < 256 ^ t.length := beNat_lt t ht
    show beBytes (t.length + 1) (b * 256 ^ t.length + beNat t) = b :: t
    have hhead : (b * 256 ^ t.length + beNat t) / 256 ^ t.length % 256 = b := by
      have hc : b * 256 ^ t.length + beNat t = 256 ^ t.length * b + beNat t := by ring
      rw [hc, Nat.mul_add_div (Nat.pos_pow_of_pos _ (by norm_num)),
        Nat.div_eq_of_lt htlt, Nat.add_zero, Nat.mod_eq_of_lt hb]
    have htail : beBytes t.length (b * 256 ^ t.length + beNat t) = t := by
      rw [beBytes_add_mul, ih ht]
    simp only [beBytes, hhead, htail]

/-! ## Unsigned varint encoding (binary.PutUvarint)

Modelled from the Go standard library contract of encoding/binary:
PutUvarint writes the base-128 little-endian groups of `x`, each group
carrying a continuation bit except the last, into the front of the buffer
and leaves the remaining buffer bytes untouched. -/

/-- Fuel-driven worker for `uvarint`; the fuel is always sufficient when
it is at least `x + 1`. -/
def uvarintAux : Nat → Nat → List Nat
  | 0, _ => []
  | fuel + 1, x => if x < 128 then [x] else (x % 128 + 128) :: uvarintAux fuel (x / 128)

/-- Base-128 varint byte groups of `x` (the encoding written by
binary.PutUvarint). -/
def uvarint (x : Nat) : List Nat := uvarintAux (x + 1) x

theorem uvarintAux_fuel_irrel (f1 : Nat) : ∀ f2 x : Nat, x < f1 → x < f2 →
    uvarintAux f1 x = uvarintAux f2 x := by
  induction f1 with
  | zero => intro f2 x h1 _; omega
  | succ f1 ih =>
    intro f2 x h1 h2
    cases f2 with
    | zero => omega
    | succ f2 =>
      simp only [uvarintAux]
      by_cases hx : x < 128
      · simp [hx]
      · simp only [hx, if_false]
        have hdiv : x / 128 < x := Nat.div_lt_self (by omega) (by norm_num)
        exact congrArg _ (ih f2 (x / 128) (by omega) (by omega))

theorem uvarint_eq (x : Nat) :
    uvarint x = if x < 128 then [x] else (x % 128 + 128) :: uvarint (x / 128) := by
  unfold uvarint uvarintAux
  by_cases hx : x < 128
  · simp [hx]
  · simp only [hx, if_false]
    have hdiv : x / 128 < x := Nat.div_lt_self (by omega) (by norm_num)
    exact congrArg _ (uvarintAux_fuel_irrel x (x / 128 + 1) (x / 128) (by omega) (by omega))

theorem uvarint_length_pos (x : Nat) : 0 < (uvarint x).length := by
  rw [uvarint_eq]
  by_cases hx : x < 128 <;> simp [hx]

theorem uvarint_length_mono (x : Nat) : ∀ y : Nat, y ≤ x →
    (uvarint y).length ≤ (uvarint x).length := by
  induction x using Nat.strong_induction_on with
  | _ x ih =>
    intro y hyx
    rw [uvarint_eq x, uvarint_eq y]
    by_cases hx : x < 128
    · have hy : y < 128 := by omega
      simp [hx, hy]
    · by_cases hy : y < 128
      · have := uvarint_length_pos (x / 128)
        simp only [if_pos hy, if_neg hx, List.length_cons, List.length_singleton,
          List.length_nil]
        omega
      · simp only [if_neg hx, if_neg hy, List.length_cons]
        have hdiv : x / 128 < x := Nat.div_lt_self (by omega) (by norm_num)
        have := ih (x / 128) hdiv (y / 128) (Nat.div_le_div_right hyx)
        omega

theorem uvarint_length_le (m : Nat) : ∀ x : Nat, x < 128 ^ m → (uvarint x).length ≤ m + 1 := by
  induction m with
  | zero =>
    intro x hx
    interval_cases x
    simp [uvarint, uvarintAux]
  | succ m ih =>
    intro x hx
    rw [uvarint_eq]
    by_cases h : x < 128
    · simp [h]
    · simp only [if_neg h, List.length_cons]
      have : x / 128 < 128 ^ m := by
        rw [Nat.div_lt_iff_lt_mul (by norm_num)]
        calc x < 128 ^ (m + 1) := hx
          _ = 128 ^ m * 128 := by ring
      exact Nat.succ_le_succ (ih _ this)

/-- PutUvarint semantics on a buffer: the varint groups overwrite the
front of the buffer, the rest is left in place.  (Go panics when the
buffer is too small; with the 10-byte buffers used by the source and
values below 2^64 this cannot happen.) -/
def putUvarint (buf : List Nat) (x : Nat) : List Nat :=
  uvarint x ++ buf.drop (uvarint x).length

/-- The varint groups of `x` padded with zeros to the 10-byte buffer
size used by the source. -/
def padUvarint (x : Nat) : List Nat :=
  uvarint x ++ List.replicate (10 - (uvarint x).length) 0

theorem putUvarint_zeros (x : Nat) :
    putUvarint (List.replicate 10 0) x = padUvarint x := by
  rw [putUvarint, padUvarint, List.drop_replicate]

theorem padUvarint_zero : padUvarint 0 = List.replicate 10 0 := by
  have h : uvarint 0 = [0] := by rw [uvarint_eq]; norm_num
  rw [padUvarint, h]
  rfl

theorem putUvarint_pad {j x : Nat} (h : (uvarint j).length ≤ (uvarint x).length) :
    putUvarint (padUvarint j) x = padUvarint x := by
  rw [putUvarint, padUvarint, padUvarint, List.drop_append_eq_append_drop,
    List.drop_eq_nil_of_le h, List.drop_replicate, List.nil_append]
  congr 2
  omega

/-! ## Data model -/

/-- Modelled from the spec: the major kind of a type descriptor
(ast.DataTypeMajor) — unsigned integer, signed integer, fixed-point,
fixed-length bytes, address, dynamic-length bytes. -/
inductive DataTypeMajor where
  | uint
  | int
  | fixed
  | fixedBytes
  | address
  | dynamicBytes
deriving DecidableEq, Repr

/-- Modelled from the spec: a type descriptor (ast.DataType) combining a
major kind with a size parameter; the core only composes, decomposes and
compares these for equality. -/
structure DataType where
  major : DataTypeMajor
  minor : Nat
deriving DecidableEq, Repr

/-- ast.ComposeDataType. -/
def ComposeDataType (major : DataTypeMajor) (minor : Nat) : DataType :=
  { major := major, minor := minor }

/-- ast.DecomposeDataType. -/
def DecomposeDataType (t : DataType) : DataTypeMajor × Nat :=
  (t.major, t.minor)

/-- Modelled from the spec: the byte-width mapping of a numeric or
fixed-length-bytes type descriptor is owned by an external type-system
module and is mocked here as the size parameter plus one (so the 31-sized
unsigned type is 32 bytes wide). -/
def byteWidth (t : DataType) : Nat := t.minor + 1

/-- Modelled from the spec: the user-facing error codes of the errors
package surfaced by this core — invalid-operand-count, invalid-data-type,
index-out-of-range — plus the general evaluation error raised when a
value is not representable in the required integer width. -/
inductive ErrorCode where
  | invalidOperandNum
  | invalidDataType
  | indexOutOfRange
  | decimalError
deriving DecidableEq, Repr

/-- Outcome class of one evaluation: a user-facing error code, or a fault
(a Go panic — slice bounds, index out of range, codec panic). -/
inductive RunErr where
  | user (code : ErrorCode)
  | fault
deriving DecidableEq, Repr

/-- One scalar value tagged by its declared type (runtime.Raw).  Exactly
one of the two fields is meaningful for a given kind: `value` for numeric
kinds, `bytes` for byte-like kinds; the Go zero values are 0 and nil. -/
structure Raw where
  value : Int := 0
  bytes : List Nat := []
deriving DecidableEq, Repr

/-- runtime.Tuple: one row of Raw values. -/
abbrev Tuple := List Raw

/-- runtime.Operand: a columnar batch — a schema plus rows, with a flag
marking a single logical scalar intended for broadcast. -/
structure Operand where
  isImmediate : Bool := false
  meta : List DataType := []
  data : List Tuple := []
deriving DecidableEq, Repr

/-- runtime.Instruction: one function-call site (the function identifier
and the ordered input Operands; the batch length is passed separately to
the evaluator, as in the source). -/
structure Instruction where
  opCode : Nat := 0
  input : List Operand := []

/-- Modelled from the spec: the execution context (common.Context) —
block and transaction fields, the account-nonce lookup, the randomness
seed and usage counter, the historical block-hash lookup, and the
Keccak-256 hash function itself, taken as an opaque field so that the
embedding stays executable.  Addresses, hashes and call input are byte
lists; the usage counter is a 64-bit value modelled as a Nat reduced
mod 2^64 at each increment. -/
structure Context where
  blockNumber : Int := 0
  time : Int := 0
  coinbase : List Nat := []
  gasLimit : Nat := 0
  callerAddress : List Nat := []
  callInput : List Nat := []
  origin : List Nat := []
  getNonce : List Nat → Nat := fun _ => 0
  randomness : List Nat := []
  randCallIndex : Nat := 0
  getHash : Nat → List Nat := fun _ => List.replicate 32 0
  keccak : List Nat → List Nat := fun _ => List.replicate 32 0

/-! ## Value codec (ast.DecimalEncode / ast.DecimalDecode)

Modelled from the spec: for numeric kinds the external decimal codec
produces the canonical fixed-width encoding and fails when the value is
not representable in the declared width; unsigned values are big-endian,
signed values are two-complement big-endian.  Values are modelled as
integers (the claims under verification only involve integral values). -/

/-- Modelled from the spec: ast.DecimalEncode — canonical byte encoding
of a numeric value at a declared type, failing (none) when the value is
not representable in the declared width. -/
def DecimalEncode (t : DataType) (v : Int) : Option (List Nat) :=
  match t.major with
  | .uint =>
      if 0 ≤ v ∧ v < 2 ^ (8 * byteWidth t) then some (beBytes (byteWidth t) v.toNat)
      else none
  | .int | .fixed =>
      if -(2 ^ (8 * byteWidth t - 1)) ≤ v ∧ v < 2 ^ (8 * byteWidth t - 1) then
        some (beBytes (byteWidth t) (v.emod (2 ^ (8 * byteWidth t))).toNat)
      else none
  | _ => none

/-- Modelled from the spec: ast.DecimalDecode — decode a canonical byte
encoding at a declared type; unsigned bytes are read big-endian, signed
bytes as two-complement of the encoded width. -/
def DecimalDecode (t : DataType) (bytes : List Nat) : Int :=
  match t.major with
  | .uint => (beNat bytes : Int)
  | .int | .fixed =>
      let n := beNat bytes
      if 2 ^ (8 * bytes.length - 1) ≤ n then (n : Int) - 2 ^ (8 * bytes.length)
      else (n : Int)
  | _ => 0

/-- Modelled from the spec: ast.DecimalToUint64 — succeeds exactly when
the value is representable as a 64-bit unsigned integer; otherwise the
call fails as a general evaluation error. -/
def decimalToUint64 (v : Int) : Except RunErr Nat :=
  if 0 ≤ v ∧ v < 2 ^ 64 then .ok v.toNat else .error (.user .decimalError)

/-! ## Codec adapter on Raw (functions.go toBytes / fromBytes) -/

/-- Raw.toBytes: byte-like kinds return the byte field directly; numeric
kinds delegate to the decimal encoder, whose failure is a panic in the
source and is modelled as none. -/
def Raw.toBytes (r : Raw) (t : DataType) : Option (List Nat) :=
  match t.major with
  | .fixedBytes | .address | .dynamicBytes => some r.bytes
  | .uint | .int | .fixed => DecimalEncode t r.value

/-- Raw.fromBytes: byte-like kinds store the byte sequence directly;
numeric kinds decode it.  The fresh Raw keeps the Go zero value in the
other field. -/
def Raw.fromBytes (bytes : List Nat) (t : DataType) : Raw :=
  match t.major with
  | .fixedBytes | .address | .dynamicBytes => { bytes := bytes }
  | .uint | .int | .fixed => { value := DecimalDecode t bytes }

/-- Raw.clone: rows are immutable in this model, so cloning is the
identity. -/
def Raw.clone (r : Raw) : Raw := r

/-! ## Type-compatibility guards -/

/-- metaBitOp: a column kind is bit-operable only for unsigned integer,
signed integer and fixed-length bytes. -/
def metaBitOp (dType : DataType) : Bool :=
  match (DecomposeDataType dType).1 with
  | .uint | .int | .fixedBytes => true
  | _ => false

/-- Modelled from the spec: metaAll — every column of the operand schema
satisfies the predicate. -/
def metaAll (op : Operand) (fn : DataType → Bool) : Bool :=
  op.meta.all fn

def metaAllBitOp (op : Operand) : Bool := metaAll op metaBitOp

/-- Modelled from the spec: the byte-sequence-valued predicate used by
length and substring — true for kinds whose representation is a byte
sequence (fixed-length bytes, address, dynamic-length bytes). -/
def metaIsDynBytes (dType : DataType) : Bool :=
  match (DecomposeDataType dType).1 with
  | .fixedBytes | .address | .dynamicBytes => true
  | _ => false

/-- Modelled from the spec: metaAllDynBytes — every column of the operand
is byte-sequence-valued. -/
def metaAllDynBytes (op : Operand) : Bool := metaAll op metaIsDynBytes

/-- Modelled from the spec: metaAllEq — two Operands are compatible for a
binary operation only if their schemas are element-wise identical. -/
def metaAllEq (op1 op2 : Operand) : Bool := op1.meta == op2.meta

/-- Modelled from the spec: findMaxDataLength — the batch row count for a
call, namely the largest data length among the input Operands. -/
def findMaxDataLength (ops : List Operand) : Except RunErr Nat :=
  .ok ((ops.map (fun op => op.data.length)).foldl max 0)

/-- Operand.clone: operands are immutable in this model, so cloning (the
source uses it to duplicate the schema before overwriting the rows)
returns the operand unchanged. -/
def Operand.clone (op : Operand) (_metaOnly : Bool) : Operand := op

/-- extractOps: arity check (fewer than two operands is an operand-count
error), batch length, then the schema-equality and bit-operability
guards. -/
def extractOps (ops : List Operand) : Except RunErr (Nat × Operand × Operand) :=
  if ops.length < 2 then .error (.user .invalidOperandNum)
  else
    match findMaxDataLength ops with
    | .error e => .error e
    | .ok n =>
      match ops with
      | op1 :: op2 :: _ =>
          if metaAllEq op1 op2 ∧ metaAllBitOp op1 then .ok (n, op1, op2)
          else .error (.user .invalidDataType)
      | _ => .error (.user .invalidOperandNum)

/-! ## Bitwise operations -/

def byteAnd (b1 b2 : Nat) : Nat := b1 &&& b2
def byteOr (b1 b2 : Nat) : Nat := b1 ||| b2
def byteXor (b1 b2 : Nat) : Nat := b1 ^^^ b2

/-- The byte complement applied by fnBitNot (the Go unary caret on a
byte). -/
def byteNot (b : Nat) : Nat := 255 ^^^ b

/-- Raw.bitBinOp: encode both sides, panic (none) on a length mismatch,
apply the byte function pairwise and decode the result. -/
def Raw.bitBinOp (r r2 : Raw) (dType : DataType) (bFn : Nat → Nat → Nat) : Option Raw :=
  match r.toBytes dType, r2.toBytes dType with
  | some bytes1, some bytes2 =>
      if bytes1.length = bytes2.length then
        some (Raw.fromBytes (List.zipWith bFn bytes1 bytes2) dType)
      else none
  | _, _ => none

/-- Tuple.bitBinOp: the source iterates over the columns of the first
tuple, indexing the second tuple and the schema at the same position; a
missing entry there is an index panic (none). -/
def tupleBitBinOp : Tuple → Tuple → List DataType → (Nat → Nat → Nat) → Option Tuple
  | [], _, _, _ => some []
  | r :: rs, r2 :: r2s, dt :: dts, bFn =>
      match r.bitBinOp r2 dt bFn, tupleBitBinOp rs r2s dts bFn with
      | some r3, some rest => some (r3 :: rest)
      | _, _ => none
  | _ :: _, _, _, _ => none

/-- The row loop of the binary bitwise evaluators: `n` rows are taken
from the two operands in lockstep; running out of rows before `n` is an
index panic (none). -/
def bitBinRows (meta : List DataType) (bFn : Nat → Nat → Nat) :
    List Tuple → List Tuple → Nat → Option (List Tuple)
  | _, _, 0 => some []
  | t1 :: d1, t2 :: d2, n + 1 =>
      match tupleBitBinOp t1 t2 meta bFn, bitBinRows meta bFn d1 d2 n with
      | some t3, some rest => some (t3 :: rest)
      | _, _ => none
  | _, _, _ + 1 => none

/-- fnBitAnd. -/
def fnBitAnd (_ctx : Context) (inst : Instruction) (_length : Nat) : Except RunErr Operand :=
  match extractOps inst.input with
  | .error e => .error e
  | .ok (n, op1, op2) =>
      match bitBinRows op1.meta byteAnd op1.data op2.data n with
      | some rows => .ok { op1.clone true with data := rows }
      | none => .error .fault

/-- fnBitOr. -/
def fnBitOr (_ctx : Context) (inst : Instruction) (_length : Nat) : Except RunErr Operand :=
  match extractOps inst.input with
  | .error e => .error e
  | .ok (n, op1, op2) =>
      match bitBinRows op1.meta byteOr op1.data op2.data n with
      | some rows => .ok { op1.clone true with data := rows }
      | none => .error .fault

/-- fnBitXor. -/
def fnBitXor (_ctx : Context) (inst : Instruction) (_length : Nat) : Except RunErr Operand :=
  match extractOps inst.input with
  | .error e => .error e
  | .ok (n, op1, op2) =>
      match bitBinRows op1.meta byteXor op1.data op2.data n with
      | some rows => .ok { op1.clone true with data := rows }
      | none => .error .fault

/-- Raw.bitUnOp: encode, apply the byte function to every byte, decode. -/
def Raw.bitUnOp (r : Raw) (dType : DataType) (bFn : Nat → Nat) : Option Raw :=
  match r.toBytes dType with
  | some bytes => some (Raw.fromBytes (bytes.map bFn) dType)
  | none => none

/-- Tuple.bitUnOp: iterate over the columns of the tuple, indexing the
schema at the same position; a missing schema entry is an index panic. -/
def tupleBitUnOp : Tuple → List DataType → (Nat → Nat) → Option Tuple
  | [], _, _ => some []
  | r :: rs, dt :: dts, bFn =>
      match r.bitUnOp dt bFn, tupleBitUnOp rs dts bFn with
      | some r2, some rest => some (r2 :: rest)
      | _, _ => none
  | _ :: _, [], _ => none

/-- The row loop of fnBitNot: every row of the operand is complemented. -/
def bitUnRows (meta : List DataType) (bFn : Nat → Nat) :
    List Tuple → Option (List Tuple)
  | [] => some []
  | t :: d =>
      match tupleBitUnOp t meta bFn, bitUnRows meta bFn d with
      | some t2, some rest => some (t2 :: rest)
      | _, _ => none

/-- fnBitNot. -/
def fnBitNot (_ctx : Context) (inst : Instruction) (_length : Nat) : Except RunErr Operand :=
  if inst.input.length < 1 then .error (.user .invalidOperandNum)
  else
    match inst.input with
    | [] => .error (.user .invalidOperandNum)
    | op :: _ =>
        if metaAllBitOp op then
          match bitUnRows op.meta byteNot op.data with
          | some rows => .ok { op.clone true with data := rows }
          | none => .error .fault
        else .error (.user .invalidDataType)

/-! ## Block-hash window function -/

/-- evalBlockHash: inside the lookback window `cur-257 < num < cur` the
requested number is converted to uint64 (failure propagates as the
general evaluation error) and the external lookup supplies the hash;
outside the window the 32-byte zero value initialised at the top of the
source function is returned. -/
def evalBlockHash (ctx : Context) (num cur : Int) : Except RunErr Raw :=
  if cur - 257 < num ∧ num < cur then
    match decimalToUint64 num with
    | .error e => .error e
    | .ok num64 => .ok { bytes := ctx.getHash num64 }
  else .ok { bytes := List.replicate 32 0 }

/-! ## Randomness function -/

/-- The 256-bit unsigned result type used by fnRand. -/
def uint31T : DataType := ComposeDataType .uint 31

/-- The value produced by one iteration of the fnRand closure at usage
index `k`, given the nonce buffer: Keccak-256 over the concatenation of
the randomness seed, the origin address, the uvarint-encoded nonce and
the uvarint-encoded usage index (each in its 10-byte buffer), decoded as
a 256-bit unsigned integer. -/
def randValueAux (ctx : Context) (nbuf : List Nat) (k : Nat) : Raw :=
  { value := DecimalDecode uint31T
      (ctx.keccak (ctx.randomness ++ ctx.origin ++ nbuf ++ padUvarint k)) }

/-- The value of row `i` of a fnRand call whose closure runs at usage
index `k`. -/
def randValueAt (ctx : Context) (k : Nat) : Raw :=
  randValueAux ctx (padUvarint (ctx.getNonce ctx.origin)) k

/-- The per-row loop of fnRand (the assignFuncResult loop specialised to
the fnRand closure): each iteration re-encodes the current usage counter
into the shared 10-byte buffer, increments the counter (a uint64, hence
mod 2^64) and derives one row. -/
def randLoop (ctx : Context) (nbuf : List Nat) :
    List Nat → Nat → Nat → List Tuple × Nat
  | _, c, 0 => ([], c)
  | buf, c, n + 1 =>
      let buf2 := putUvarint buf c
      let rest := randLoop ctx nbuf buf2 ((c + 1) % 2 ^ 64) n
      ([{ value := DecimalDecode uint31T
            (ctx.keccak (ctx.randomness ++ ctx.origin ++ nbuf ++ buf2)) }] :: rest.1,
        rest.2)

/-- fnRand: zero operand arguments (the instruction is ignored by the
source); the origin nonce is varint-encoded once, the usage buffer starts
zeroed, and one row is derived per output index.  The updated context
carries the advanced usage counter. -/
def fnRand (ctx : Context) (_inst : Instruction) (length : Nat) :
    Except RunErr Operand × Context :=
  let nbuf := putUvarint (List.replicate 10 0) (ctx.getNonce ctx.origin)
  let out := randLoop ctx nbuf (List.replicate 10 0) ctx.randCallIndex length
  (.ok { meta := [uint31T], data := out.1 }, { ctx with randCallIndex := out.2 })

/-! ## Byte-sequence utilities -/

/-- The 33-byte-sized unsigned result type used by fnOctetLength. -/
def uint256T : DataType := ComposeDataType .uint 32

/-- The dynamic-bytes result type used by fnSubString. -/
def dynBytesT : DataType := ComposeDataType .dynamicBytes 0

/-- fnOctetLength: one operand, every column byte-sequence-valued; the
result replaces every schema column with the wide unsigned type and every
value with the byte length of the corresponding input value. -/
def fnOctetLength (_ctx : Context) (inst : Instruction) (_length : Nat) :
    Except RunErr Operand :=
  if inst.input.length < 1 then .error (.user .invalidOperandNum)
  else
    match inst.input with
    | [] => .error (.user .invalidOperandNum)
    | op :: _ =>
        if metaAllDynBytes op then
          .ok { meta := List.replicate op.meta.length uint256T,
                data := op.data.map (fun t =>
                  t.map (fun r => { value := (r.bytes.length : Int) })) }
        else .error (.user .invalidDataType)

/-- Modelled from the spec: Operand.toUint64 — resolve the operand to the
distinct 64-bit unsigned values among its entries; a value that is not
representable in 64 bits is the general evaluation error. -/
def Operand.toUint64 (op : Operand) : Except RunErr (List Nat) :=
  match (op.data.flatMap (fun t => t)).mapM (fun r => decimalToUint64 r.value) with
  | .error e => .error e
  | .ok vs => .ok vs.dedup

/-- Go slicing `l[a:b]`: defined when `a ≤ b ≤ len l` (the capacity of
the backing array is modelled as its length); otherwise the slice-bounds
panic, modelled as none. -/
def goSlice (l : List Nat) (a b : Nat) : Option (List Nat) :=
  if a ≤ b ∧ b ≤ l.length then some ((l.drop a).take (b - a)) else none

/-- One row of the substring loop: slice every column value of the row. -/
def sliceTuple : Tuple → Nat → Nat → Option Tuple
  | [], _, _ => some []
  | r :: rs, a, b =>
      match goSlice r.bytes a b, sliceTuple rs a b with
      | some bs, some rest => some ({ bytes := bs } :: rest)
      | _, _ => none

/-- The row loop of fnSubString. -/
def sliceRows : List Tuple → Nat → Nat → Option (List Tuple)
  | [], _, _ => some []
  | t :: d, a, b =>
      match sliceTuple t a b, sliceRows d a b with
      | some t2, some rest => some (t2 :: rest)
      | _, _ => none

/-- fnSubString.  NOTE: the source sets the invalid-data-type error when
the source operand is not byte-sequence-valued but does not return at
that point, and the error variable is then overwritten by the conversion
of the start argument, so the type check has no effect; the dead check is
kept here as a discarded binding.  The start and length arguments must
each resolve to a single scalar; the slice bound is computed in uint64
arithmetic and each row is sliced, a slice-bounds violation being a
panic. -/
def fnSubString (_ctx : Context) (inst : Instruction) (_length : Nat) :
    Except RunErr Operand :=
  if inst.input.length < 3 then .error (.user .invalidOperandNum)
  else
    match inst.input with
    | op :: arg1 :: arg2 :: _ =>
        let _droppedTypeErr : Option ErrorCode :=
          if metaAllDynBytes op then none else some .invalidDataType
        match arg1.toUint64 with
        | .error e => .error e
        | .ok starts =>
            if starts.length ≠ 1 then .error (.user .indexOutOfRange)
            else
              match arg2.toUint64 with
              | .error e => .error e
              | .ok lens =>
                  if lens.length ≠ 1 then .error (.user .indexOutOfRange)
                  else
                    let start := starts.headD 0
                    let stop := (start + lens.headD 0) % 2 ^ 64
                    match sliceRows op.data start stop with
                    | some rows =>
                        .ok { meta := List.replicate op.meta.length dynBytesT,
                              data := rows }
                    | none => .error .fault
    | _ => .error (.user .invalidOperandNum)

/-! ## Well-formedness of tagged values

A Raw is well formed at a declared type when the meaningful field is in
the canonical range of the type and the other field holds the Go zero
value (which is what every evaluator of the source produces). -/

def wellFormedRaw (t : DataType) (r : Raw) : Bool :=
  match t.major with
  | .uint =>
      r.bytes.isEmpty && decide (0 ≤ r.value) && decide (r.value < 2 ^ (8 * byteWidth t))
  | .int | .fixed =>
      r.bytes.isEmpty && decide (-(2 ^ (8 * byteWidth t - 1) : Int) ≤ r.value)
        && decide (r.value < 2 ^ (8 * byteWidth t - 1))
  | .fixedBytes =>
      decide (r.value = 0) && r.bytes.all (fun b => b < 256)
        && decide (r.bytes.length = byteWidth t)
  | .address | .dynamicBytes =>
      decide (r.value = 0) && r.bytes.all (fun b => b < 256)

/-- A tuple is well formed at a schema when it has one well-formed value
per column. -/
def wellFormedTuple : List DataType → Tuple → Bool
  | [], [] => true
  | dt :: dts, r :: rs => wellFormedRaw dt r && wellFormedTuple dts rs
  | _, _ => false

/-- An operand is well formed when every row is well formed at its
schema. -/
def wellFormedOperand (op : Operand) : Bool :=
  op.data.all (fun t => wellFormedTuple op.meta t)

/-! ## Codec roundtrip lemmas -/

theorem byteWidth_pos (t : DataType) : 0 < byteWidth t := Nat.succ_pos _

theorem pow256_eq (w : Nat) : (256 : Nat) ^ w = 2 ^ (8 * w) := by
  rw [show (256 : Nat) = 2 ^ 8 by norm_num, ← pow_mul]

theorem toNat_lt_pow256 {v : Int} {w : Nat} (h0 : 0 ≤ v) (h1 : v < 2 ^ (8 * w)) :
    v.toNat < 256 ^ w := by
  rw [pow256_eq]
  have hc : ((2 ^ (8 * w) : Nat) : Int) = 2 ^ (8 * w) := by push_cast; rfl
  omega

theorem uint_encode_spec (t : DataType) (hmaj : t.major = DataTypeMajor.uint) (v : Int)
    (h0 : 0 ≤ v) (h1 : v < 2 ^ (8 * byteWidth t)) :
    DecimalEncode t v = some (beBytes (byteWidth t) v.toNat) := by
  unfold DecimalEncode
  rw [hmaj]
  exact if_pos ⟨h0, h1⟩

theorem uint_decode_spec (t : DataType) (hmaj : t.major = DataTypeMajor.uint) (v : Int)
    (h0 : 0 ≤ v) (h1 : v < 2 ^ (8 * byteWidth t)) :
    DecimalDecode t (beBytes (byteWidth t) v.toNat) = v := by
  unfold DecimalDecode
  rw [hmaj]
  show ((beNat (beBytes (byteWidth t) v.toNat) : Nat) : Int) = v
  rw [beNat_beBytes_of_lt (toNat_lt_pow256 h0 h1)]
  exact Int.toNat_of_nonneg h0

theorem uint_encode_decode (t : DataType) (hmaj : t.major = DataTypeMajor.uint)
    (l : List Nat) (hlen : l.length = byteWidth t) (hlt : ∀ b ∈ l, b < 256) :
    DecimalEncode t (DecimalDecode t l) = some l := by
  have hnlt : beNat l < 2 ^ (8 * byteWidth t) := by
    have := beNat_lt l hlt
    rwa [hlen, pow256_eq] at this
  have hv0 : (0 : Int) ≤ (beNat l : Int) := Int.natCast_nonneg _
  have hv1 : ((beNat l : Nat) : Int) < 2 ^ (8 * byteWidth t) := by
    have hc : ((2 ^ (8 * byteWidth t) : Nat) : Int) = 2 ^ (8 * byteWidth t) := by
      push_cast; rfl
    omega
  have hdec : DecimalDecode t l = (beNat l : Int) := by
    unfold DecimalDecode; rw [hmaj]
  rw [hdec, uint_encode_spec t hmaj _ hv0 hv1, Int.toNat_natCast, ← hlen,
    beBytes_beNat l hlt]

theorem int_width_eq (t : DataType) : 8 * byteWidth t = (8 * byteWidth t - 1) + 1 := by
  have := byteWidth_pos t
  omega

theorem int_pow_split (t : DataType) :
    (2 : Int) ^ (8 * byteWidth t) = 2 ^ (8 * byteWidth t - 1) * 2 := by
  conv_lhs => rw [int_width_eq t]
  rw [pow_succ]

theorem int_encode_spec (t : DataType) (hmaj : t.major = DataTypeMajor.int) (v : Int)
    (h0 : -(2 ^ (8 * byteWidth t - 1)) ≤ v) (h1 : v < 2 ^ (8 * byteWidth t - 1)) :
    DecimalEncode t v = some (beBytes (byteWidth t) (v.emod (2 ^ (8 * byteWidth t))).toNat) := by
  unfold DecimalEncode
  rw [hmaj]
  exact if_pos ⟨h0, h1⟩

theorem int_emod_cases (t : DataType) (v : Int)
    (h0 : -(2 ^ (8 * byteWidth t - 1)) ≤ v) (h1 : v < 2 ^ (8 * byteWidth t - 1)) :
    v.emod (2 ^ (8 * byteWidth t)) = if 0 ≤ v then v else v + 2 ^ (8 * byteWidth t) := by
  have hsplit := int_pow_split t
  by_cases hv : 0 ≤ v
  · rw [if_pos hv]
    exact Int.emod_eq_of_lt hv (by nlinarith)
  · rw [if_neg hv]
    have hlt : v + 2 ^ (8 * byteWidth t) < 2 ^ (8 * byteWidth t) := by omega
    have hge : 0 ≤ v + 2 ^ (8 * byteWidth t) := by nlinarith
    have h2 : (v + 2 ^ (8 * byteWidth t)) % (2 ^ (8 * byteWidth t))
        = v % (2 ^ (8 * byteWidth t)) := by
      rw [show v + 2 ^ (8 * byteWidth t) = v + 2 ^ (8 * byteWidth t) * 1 by ring,
        Int.add_mul_emod_self_left]
    show v % (2 ^ (8 * byteWidth t)) = v + 2 ^ (8 * byteWidth t)
    rw [← h2]
    exact Int.emod_eq_of_lt hge hlt

theorem int_decode_spec (t : DataType) (hmaj : t.major = DataTypeMajor.int) (v : Int)
    (h0 : -(2 ^ (8 * byteWidth t - 1)) ≤ v) (h1 : v < 2 ^ (8 * byteWidth t - 1)) :
    DecimalDecode t (beBytes (byteWidth t) (v.emod (2 ^ (8 * byteWidth t))).toNat) = v := by
  have hsplit := int_pow_split t
  have hmodrange : 0 ≤ v.emod (2 ^ (8 * byteWidth t)) ∧
      v.emod (2 ^ (8 * byteWidth t)) < 2 ^ (8 * byteWidth t) := by
    constructor
    · exact Int.emod_nonneg v (by positivity)
    · exact Int.emod_lt_of_pos v (by positivity)
  have hlt256 : (v.emod (2 ^ (8 * byteWidth t))).toNat < 256 ^ byteWidth t :=
    toNat_lt_pow256 hmodrange.1 hmodrange.2
  unfold DecimalDecode
  rw [hmaj]
  show (if 2 ^ (8 * (beBytes _ _).length - 1) ≤ beNat (beBytes _ _) then
      ((beNat (beBytes _ _) : Nat) : Int) - 2 ^ (8 * (beBytes _ _).length)
    else ((beNat (beBytes _ _) : Nat) : Int)) = v
  rw [beBytes_length, beNat_beBytes_of_lt hlt256]
  rw [int_emod_cases t v h0 h1]
  have hcast : ((2 ^ (8 * byteWidth t - 1) : Nat) : Int) = 2 ^ (8 * byteWidth t - 1) := by
    push_cast; rfl
  have hcast2 : ((2 ^ (8 * byteWidth t) : Nat) : Int) = 2 ^ (8 * byteWidth t) := by
    push_cast; rfl
  by_cases hv : 0 ≤ v
  · rw [if_pos hv]
    have hnot : ¬ (2 ^ (8 * byteWidth t - 1) ≤ v.toNat) := by omega
    rw [if_neg hnot]
    exact Int.toNat_of_nonneg hv
  · rw [if_neg hv]
    have hge0 : 0 ≤ v + 2 ^ (8 * byteWidth t) := by nlinarith
    have hyes : 2 ^ (8 * byteWidth t - 1) ≤ (v + 2 ^ (8 * byteWidth t)).toNat := by
      have : (2 : Int) ^ (8 * byteWidth t - 1) ≤ v + 2 ^ (8 * byteWidth t) := by nlinarith
      omega
    rw [if_pos hyes]
    have : ((v + 2 ^ (8 * byteWidth t)).toNat : Int) = v + 2 ^ (8 * byteWidth t) :=
      Int.toNat_of_nonneg hge0
    omega

theorem int_encode_decode (t : DataType) (hmaj : t.major = DataTypeMajor.int)
    (l : List Nat) (hlen : l.length = byteWidth t) (hlt : ∀ b ∈ l, b < 256) :
    DecimalEncode t (DecimalDecode t l) = some l := by
  have hsplit := int_pow_split t
  have hnlt : beNat l < 2 ^ (8 * byteWidth t) := by
    have := beNat_lt l hlt
    rwa [hlen, pow256_eq] at this
  have hcast : ((2 ^ (8 * byteWidth t - 1) : Nat) : Int) = 2 ^ (8 * byteWidth t - 1) := by
    push_cast; rfl
  have hdec : DecimalDecode t l =
      if 2 ^ (8 * byteWidth t - 1) ≤ beNat l then
        ((beNat l : Nat) : Int) - 2 ^ (8 * byteWidth t)
      else ((beNat l : Nat) : Int) := by
    unfold DecimalDecode
    rw [hmaj, hlen]
  by_cases hn : 2 ^ (8 * byteWidth t - 1) ≤ beNat l
  · rw [hdec, if_pos hn]
    set v : Int := ((beNat l : Nat) : Int) - 2 ^ (8 * byteWidth t) with hvdef
    have h0 : -(2 ^ (8 * byteWidth t - 1)) ≤ v := by
      have : ((2 ^ (8 * byteWidth t - 1) : Nat) : Int) ≤ ((beNat l : Nat) : Int) := by
        exact_mod_cast hn
      rw [hvdef]; omega
    have h1 : v < 2 ^ (8 * byteWidth t - 1) := by
      have hc2 : ((beNat l : Nat) : Int) < 2 ^ (8 * byteWidth t) := by
        exact_mod_cast hnlt
      rw [hvdef]; omega
    rw [int_encode_spec t hmaj v h0 h1]
    have hemod : v.emod (2 ^ (8 * byteWidth t)) = ((beNat l : Nat) : Int) := by
      rw [int_emod_cases t v h0 h1]
      have hvneg : ¬ (0 ≤ v) := by
        have hc2 : ((beNat l : Nat) : Int) < 2 ^ (8 * byteWidth t) := by
          exact_mod_cast hnlt
        rw [hvdef]; omega
      rw [if_neg hvneg, hvdef]; ring
    rw [hemod, Int.toNat_natCast, ← hlen, beBytes_beNat l hlt]
  · rw [hdec, if_neg hn]
    set v : Int := ((beNat l : Nat) : Int) with hvdef
    have h0 : -(2 ^ (8 * byteWidth t - 1)) ≤ v := by
      have : (0 : Int) ≤ v := Int.natCast_nonneg _
      have : (0 : Int) < 2 ^ (8 * byteWidth t - 1) := by positivity
      omega
    have h1 : v < 2 ^ (8 * byteWidth t - 1) := by
      have : beNat l < 2 ^ (8 * byteWidth t - 1) := by omega
      rw [hvdef]
      exact_mod_cast this
    rw [int_encode_spec t hmaj v h0 h1]
    have hemod : v.emod (2 ^ (8 * byteWidth t)) = v := by
      rw [int_emod_cases t v h0 h1, if_pos (Int.natCast_nonneg _)]
    rw [hemod, hvdef, Int.toNat_natCast, ← hlen, beBytes_beNat l hlt]

/-! ## Raw-level codec roundtrips -/

theorem byteNot_byteNot (b : Nat) : byteNot (byteNot b) = b := by
  unfold byteNot
  rw [← Nat.xor_assoc, Nat.xor_self, Nat.zero_xor]

theorem byteNot_lt {b : Nat} (h : b < 256) : byteNot b < 256 := by
  have h255 : (255 : Nat) < 2 ^ 8 := by norm_num
  have hb : b < 2 ^ 8 := by norm_num at h ⊢; omega
  have := Nat.xor_lt_two_pow h255 hb
  unfold byteNot
  norm_num at this ⊢
  omega

/-- A well-formed bit-operable value encodes to a byte string of exactly
the declared width, all bytes in range, and decoding that byte string
reproduces the value. -/
theorem toBytes_of_wellFormed (t : DataType) (r : Raw)
    (hbit : metaBitOp t = true) (hwf : wellFormedRaw t r = true) :
    ∃ l, r.toBytes t = some l ∧ l.length = byteWidth t ∧ (∀ b ∈ l, b < 256)
      ∧ Raw.fromBytes l t = r := by
  cases r with
  | mk value bytes =>
    cases hmaj : t.major with
    | fixed | address | dynamicBytes =>
      rw [metaBitOp, DecomposeDataType, hmaj] at hbit
      cases hbit
    | uint =>
      have hwf2 : (bytes = [] ∧ 0 ≤ value) ∧ value < 2 ^ (8 * byteWidth t) := by
        rw [wellFormedRaw, hmaj] at hwf
        simpa [List.isEmpty_iff] using hwf
      obtain ⟨⟨hb, h0⟩, h1⟩ := hwf2
      refine ⟨beBytes (byteWidth t) value.toNat, ?_, beBytes_length _ _,
        beBytes_lt _ _, ?_⟩
      · rw [Raw.toBytes, hmaj]
        exact uint_encode_spec t hmaj value h0 h1
      · rw [Raw.fromBytes, hmaj, uint_decode_spec t hmaj value h0 h1, hb]
    | int =>
      have hwf2 : (bytes = [] ∧ -(2 ^ (8 * byteWidth t - 1)) ≤ value)
          ∧ value < 2 ^ (8 * byteWidth t - 1) := by
        rw [wellFormedRaw, hmaj] at hwf
        simpa [List.isEmpty_iff] using hwf
      obtain ⟨⟨hb, h0⟩, h1⟩ := hwf2
      refine ⟨beBytes (byteWidth t) (value.emod (2 ^ (8 * byteWidth t))).toNat, ?_,
        beBytes_length _ _, beBytes_lt _ _, ?_⟩
      · rw [Raw.toBytes, hmaj]
        exact int_encode_spec t hmaj value h0 h1
      · rw [Raw.fromBytes, hmaj, int_decode_spec t hmaj value h0 h1, hb]
    | fixedBytes =>
      have hwf2 : (value = 0 ∧ ∀ b ∈ bytes, b < 256) ∧ bytes.length = byteWidth t := by
        rw [wellFormedRaw, hmaj] at hwf
        simpa [List.all_eq_true, decide_eq_true_iff] using hwf
      obtain ⟨⟨hv, hlt⟩, hlen⟩ := hwf2
      refine ⟨bytes, ?_, hlen, hlt, ?_⟩
      · rw [Raw.toBytes, hmaj]
      · rw [Raw.fromBytes, hmaj, hv]

/-- Encoding the decode of a byte string of the declared width reproduces
the byte string, for bit-operable kinds. -/
theorem toBytes_fromBytes (t : DataType) (l : List Nat)
    (hbit : metaBitOp t = true) (hlen : l.length = byteWidth t)
    (hlt : ∀ b ∈ l, b < 256) :
    (Raw.fromBytes l t).toBytes t = some l := by
  cases hmaj : t.major with
  | fixed | address | dynamicBytes =>
    rw [metaBitOp, DecomposeDataType, hmaj] at hbit
    cases hbit
  | uint =>
    rw [Raw.fromBytes, hmaj, Raw.toBytes, hmaj]
    exact uint_encode_decode t hmaj l hlen hlt
  | int =>
    rw [Raw.fromBytes, hmaj, Raw.toBytes, hmaj]
    exact int_encode_decode t hmaj l hlen hlt
  | fixedBytes =>
    rw [Raw.fromBytes, hmaj, Raw.toBytes, hmaj]

/-- Unfolding equation for Raw.bitUnOp when encoding succeeds. -/
theorem Raw.bitUnOp_eq_of_toBytes {r : Raw} {t : DataType} {l : List Nat}
    (h : r.toBytes t = some l) (bFn : Nat → Nat) :
    r.bitUnOp t bFn = some (Raw.fromBytes (l.map bFn) t) := by
  unfold Raw.bitUnOp
  rw [h]

/-- C6 (claim theorem): for every bit-operable value, applying the
bit-not operation of fnBitNot twice returns the value unchanged:
NOT(NOT(x)) = x. -/
theorem claim_C6_bitNot_involution (t : DataType) (r : Raw)
    (hbit : metaBitOp t = true) (hwf : wellFormedRaw t r = true) :
    (r.bitUnOp t byteNot).bind (fun r2 => r2.bitUnOp t byteNot) = some r := by
  obtain ⟨l, htb, hlen, hlt, hfb⟩ := toBytes_of_wellFormed t r hbit hwf
  have hmap_len : (l.map byteNot).length = byteWidth t := by
    rw [List.length_map, hlen]
  have hmap_lt : ∀ b ∈ l.map byteNot, b < 256 := by
    intro b hb
    obtain ⟨a, ha, rfl⟩ := List.mem_map.mp hb
    exact byteNot_lt (hlt a ha)
  have h2 := toBytes_fromBytes t (l.map byteNot) hbit hmap_len hmap_lt
  have hmapmap : (l.map byteNot).map byteNot = l := by
    rw [List.map_map]
    have : (byteNot ∘ byteNot) = id := funext byteNot_byteNot
    rw [this, List.map_id]
  rw [Raw.bitUnOp_eq_of_toBytes htb byteNot]
  show (Raw.fromBytes (l.map byteNot) t).bitUnOp t byteNot = some r
  rw [Raw.bitUnOp_eq_of_toBytes h2 byteNot, hmapmap, hfb]

/-- Witness for C6 at the 8-bit unsigned type with value 10. -/
theorem claim_C6_witness :
    metaBitOp (ComposeDataType .uint 0) = true
    ∧ wellFormedRaw (ComposeDataType .uint 0) { value := 10 } = true
    ∧ (Raw.bitUnOp { value := 10 } (ComposeDataType .uint 0) byteNot).bind
        (fun r2 => r2.bitUnOp (ComposeDataType .uint 0) byteNot) = some { value := 10 } :=
  ⟨by decide, by decide,
    claim_C6_bitNot_involution (ComposeDataType .uint 0) { value := 10 }
      (by decide) (by decide)⟩

/-! ## Claims about the block-hash window function -/

/-- A concrete execution context used by witnesses and counterexamples:
the block-hash lookup and the hash function are simple computable
functions. -/
def ctx0 : Context :=
  { blockNumber := 1000,
    origin := List.replicate 20 7,
    getHash := fun n => List.replicate 31 0 ++ [n % 256],
    keccak := fun l => List.replicate 31 0 ++ [l.length % 256] }

/-- Counterexample to C1 as stated: at current block 2^64 + 2 the
requested number 2^64 lies strictly inside the lookback window, yet the
evaluator does not return the lookup hash — it fails with the general
evaluation error because the number is not representable as uint64. -/
theorem claim_C1_counterexample :
    ((2 ^ 64 + 2 : Int) - 257 < 2 ^ 64 ∧ (2 ^ 64 : Int) < 2 ^ 64 + 2)
    ∧ evalBlockHash ctx0 (2 ^ 64) (2 ^ 64 + 2) = .error (.user .decimalError) := by
  constructor
  · constructor <;> norm_num
  · rfl

/-- C1 (amended claim theorem): the evaluator returns the external
lookup hash exactly when `cur - 257 < num < cur` and `num` is
representable as a 64-bit unsigned integer; an in-window unrepresentable
number is a general evaluation error; every other number yields 32 zero
bytes.  In particular, at current block 1000, numbers 999 and 744 return
the lookup hash while 1000 and 743 return 32 zero bytes. -/
theorem claim_C1_blockhash_window :
    (∀ (ctx : Context) (num cur : Int),
      evalBlockHash ctx num cur =
        if cur - 257 < num ∧ num < cur then
          (if 0 ≤ num ∧ num < 2 ^ 64 then Except.ok { bytes := ctx.getHash num.toNat }
           else Except.error (RunErr.user ErrorCode.decimalError))
        else Except.ok { bytes := List.replicate 32 0 })
    ∧ (∀ ctx : Context,
        evalBlockHash ctx 999 1000 = .ok { bytes := ctx.getHash 999 }
        ∧ evalBlockHash ctx 744 1000 = .ok { bytes := ctx.getHash 744 }
        ∧ evalBlockHash ctx 1000 1000 = .ok { bytes := List.replicate 32 0 }
        ∧ evalBlockHash ctx 743 1000 = .ok { bytes := List.replicate 32 0 }) := by
  have hmain : ∀ (ctx : Context) (num cur : Int),
      evalBlockHash ctx num cur =
        if cur - 257 < num ∧ num < cur then
          (if 0 ≤ num ∧ num < 2 ^ 64 then Except.ok { bytes := ctx.getHash num.toNat }
           else Except.error (RunErr.user ErrorCode.decimalError))
        else Except.ok { bytes := List.replicate 32 0 } := by
    intro ctx num cur
    unfold evalBlockHash decimalToUint64
    by_cases h1 : cur - 257 < num ∧ num < cur
    · rw [if_pos h1, if_pos h1]
      by_cases h2 : 0 ≤ num ∧ num < 2 ^ 64
      · rw [if_pos h2, if_pos h2]
      · rw [if_neg h2, if_neg h2]
    · rw [if_neg h1, if_neg h1]
  refine ⟨hmain, fun ctx => ⟨?_, ?_, ?_, ?_⟩⟩
  · rw [hmain]
    norm_num
    rfl
  · rw [hmain]
    norm_num
    rfl
  · rw [hmain]
    norm_num
  · rw [hmain]
    norm_num

/-- Counterexample to C10 as stated: 2^64 is not representable as
uint64, yet at current block 1000 the call does not fail — it lies
outside the window, so the conversion is never attempted and 32 zero
bytes are returned. -/
theorem claim_C10_counterexample :
    evalBlockHash ctx0 (2 ^ 64) 1000 = .ok { bytes := List.replicate 32 0 }
    ∧ ¬ ((0 : Int) ≤ 2 ^ 64 ∧ (2 ^ 64 : Int) < 2 ^ 64) := by
  constructor
  · rfl
  · intro h
    exact absurd h.2 (by norm_num)

/-- C10 (amended claim theorem): a block number that is not
representable as a 64-bit unsigned integer fails as a general evaluation
error exactly when it lies inside the lookback window; outside the
window the conversion is never attempted and 32 zero bytes are
returned. -/
theorem claim_C10_blockhash_unrepresentable (ctx : Context) (num cur : Int)
    (h : ¬ (0 ≤ num ∧ num < 2 ^ 64)) :
    evalBlockHash ctx num cur =
      if cur - 257 < num ∧ num < cur then Except.error (RunErr.user ErrorCode.decimalError)
      else Except.ok { bytes := List.replicate 32 0 } := by
  unfold evalBlockHash decimalToUint64
  by_cases h1 : cur - 257 < num ∧ num < cur
  · rw [if_pos h1, if_pos h1, if_neg h]
  · rw [if_neg h1, if_neg h1]

/-- Witness for C10 at `num = 2^64`, `cur = 2^64 + 2`. -/
theorem claim_C10_witness :
    ¬ ((0 : Int) ≤ 2 ^ 64 ∧ (2 ^ 64 : Int) < 2 ^ 64)
    ∧ evalBlockHash ctx0 (2 ^ 64) (2 ^ 64 + 2) =
        (if (2 ^ 64 + 2 : Int) - 257 < 2 ^ 64 ∧ (2 ^ 64 : Int) < 2 ^ 64 + 2 then
          Except.error (RunErr.user ErrorCode.decimalError)
        else Except.ok { bytes := List.replicate 32 0 }) :=
  ⟨fun h => absurd h.2 (by norm_num),
    claim_C10_blockhash_unrepresentable ctx0 (2 ^ 64) (2 ^ 64 + 2)
      (fun h => absurd h.2 (by norm_num))⟩

/-! ## Claims about the binary bitwise operators -/

theorem extractOps_len_lt {ops : List Operand} (h : ops.length < 2) :
    extractOps ops = .error (.user .invalidOperandNum) := by
  unfold extractOps
  rw [if_pos h]

theorem extractOps_cons_bad {op1 op2 : Operand} {rest : List Operand}
    (h : ¬ (op1.meta = op2.meta ∧ metaAllBitOp op1 = true)) :
    extractOps (op1 :: op2 :: rest) = .error (.user .invalidDataType) := by
  unfold extractOps findMaxDataLength
  rw [if_neg (by simp)]
  show (if metaAllEq op1 op2 ∧ metaAllBitOp op1 then _ else _) = _
  rw [if_neg]
  intro hc
  exact h ⟨by simpa [metaAllEq] using hc.1, hc.2⟩

theorem extractOps_cons_ok {op1 op2 : Operand} {rest : List Operand}
    (h1 : op1.meta = op2.meta) (h2 : metaAllBitOp op1 = true) :
    extractOps (op1 :: op2 :: rest) =
      .ok (((op1 :: op2 :: rest).map (fun op => op.data.length)).foldl max 0, op1, op2) := by
  unfold extractOps findMaxDataLength
  rw [if_neg (by simp)]
  show (if metaAllEq op1 op2 ∧ metaAllBitOp op1 then _ else _) = _
  rw [if_pos ⟨by simpa [metaAllEq] using h1, h2⟩]

theorem extractOps_ok_inv {ops : List Operand} {x : Nat × Operand × Operand}
    (h : extractOps ops = .ok x) :
    2 ≤ ops.length ∧ ∃ op1 op2 rest, ops = op1 :: op2 :: rest
      ∧ op1.meta = op2.meta ∧ metaAllBitOp op1 = true := by
  by_cases hl : ops.length < 2
  · rw [extractOps_len_lt hl] at h
    cases h
  · match ops with
    | op1 :: op2 :: rest =>
      refine ⟨by omega, op1, op2, rest, rfl, ?_⟩
      by_cases hc : op1.meta = op2.meta ∧ metaAllBitOp op1 = true
      · exact hc
      · rw [extractOps_cons_bad hc] at h
        cases h
    | [] => simp at hl
    | [op1] => simp at hl

/-- C4 (amended claim theorem): the binary bitwise evaluators succeed
only when given at least two input Operands whose first two have
element-wise identical schemas and whose first operand has only
bit-operable columns (operands beyond the first two are ignored except
for sizing the batch); fewer than two operands fails with the
invalid-operand-count error; a schema mismatch or a non-bit-operable
column fails with the invalid-data-type error. -/
theorem claim_C4_bitop_guards :
    (∀ (ctx : Context) (inst : Instruction) (n : Nat), inst.input.length < 2 →
        fnBitAnd ctx inst n = .error (.user .invalidOperandNum)
        ∧ fnBitOr ctx inst n = .error (.user .invalidOperandNum)
        ∧ fnBitXor ctx inst n = .error (.user .invalidOperandNum))
    ∧ (∀ (ctx : Context) (inst : Instruction) (n : Nat) (op1 op2 : Operand)
          (rest : List Operand),
        inst.input = op1 :: op2 :: rest →
        ¬ (op1.meta = op2.meta ∧ metaAllBitOp op1 = true) →
        fnBitAnd ctx inst n = .error (.user .invalidDataType)
        ∧ fnBitOr ctx inst n = .error (.user .invalidDataType)
        ∧ fnBitXor ctx inst n = .error (.user .invalidDataType))
    ∧ (∀ (ctx : Context) (inst : Instruction) (n : Nat) (out : Operand),
        (fnBitAnd ctx inst n = .ok out ∨ fnBitOr ctx inst n = .ok out
          ∨ fnBitXor ctx inst n = .ok out) →
        2 ≤ inst.input.length
        ∧ ∃ op1 op2 rest, inst.input = op1 :: op2 :: rest
            ∧ op1.meta = op2.meta ∧ metaAllBitOp op1 = true) := by
  refine ⟨?_, ?_, ?_⟩
  · intro ctx inst n h
    refine ⟨?_, ?_, ?_⟩ <;>
      (first
        | (unfold fnBitAnd; rw [extractOps_len_lt h])
        | (unfold fnBitOr; rw [extractOps_len_lt h])
        | (unfold fnBitXor; rw [extractOps_len_lt h]))
  · intro ctx inst n op1 op2 rest hin h
    refine ⟨?_, ?_, ?_⟩ <;>
      (first
        | (unfold fnBitAnd; rw [hin, extractOps_cons_bad h])
        | (unfold fnBitOr; rw [hin, extractOps_cons_bad h])
        | (unfold fnBitXor; rw [hin, extractOps_cons_bad h]))
  · intro ctx inst n out h
    have hex : ∃ x, extractOps inst.input = .ok x := by
      rcases h with h | h | h
      · unfold fnBitAnd at h
        rcases he : extractOps inst.input with e | x
        · rw [he] at h; cases h
        · exact ⟨x, rfl⟩
      · unfold fnBitOr at h
        rcases he : extractOps inst.input with e | x
        · rw [he] at h; cases h
        · exact ⟨x, rfl⟩
      · unfold fnBitXor at h
        rcases he : extractOps inst.input with e | x
        · rw [he] at h; cases h
        · exact ⟨x, rfl⟩
    obtain ⟨x, hx⟩ := hex
    exact extractOps_ok_inv hx

/-- The 8-bit unsigned type and two single-row operands used by the
concrete bitwise examples. -/
def uint8T : DataType := ComposeDataType .uint 0

def op8a : Operand := { meta := [uint8T], data := [[{ value := 10 }]] }

def op8b : Operand := { meta := [uint8T], data := [[{ value := 12 }]] }

/-- Counterexample to C4 as stated: a call with three operands is not
rejected — the evaluator uses the first two and succeeds, so requiring
exactly two operands does not hold. -/
theorem claim_C4_counterexample :
    fnBitAnd ctx0 { input := [op8a, op8b, op8a] } 1
      = .ok { meta := [uint8T], data := [[{ value := 8 }]] }
    ∧ [op8a, op8b, op8a].length ≠ 2 := by
  constructor
  · rfl
  · decide

/-- Witness for C4 at a concrete one-operand call. -/
theorem claim_C4_witness :
    fnBitAnd ctx0 { input := [op8a] } 1 = .error (.user .invalidOperandNum)
    ∧ fnBitOr ctx0 { input := [op8a] } 1 = .error (.user .invalidOperandNum)
    ∧ fnBitXor ctx0 { input := [op8a] } 1 = .error (.user .invalidOperandNum) :=
  claim_C4_bitop_guards.1 ctx0 { input := [op8a] } 1 (by decide)

/-! ## C5: byte-wise semantics of the binary bitwise operators -/

/-- Reference description of the binary bitwise result, following the
specification words: apply the byte function pairwise to the canonical
encodings, column by column, row by row, keeping the schema (and the
scalar flag) of the first operand. -/
def specBitResult (bFn : Nat → Nat → Nat) (op1 op2 : Operand) : Operand :=
  { isImmediate := op1.isImmediate,
    meta := op1.meta,
    data := List.zipWith (fun t1 t2 =>
        List.zipWith3 (fun (r1 r2 : Raw) (dt : DataType) =>
          Raw.fromBytes
            (List.zipWith bFn ((r1.toBytes dt).getD []) ((r2.toBytes dt).getD [])) dt)
          t1 t2 op1.meta)
      op1.data op2.data }

theorem Raw.bitBinOp_wf {t : DataType} {r1 r2 : Raw}
    (hbit : metaBitOp t = true)
    (hwf1 : wellFormedRaw t r1 = true) (hwf2 : wellFormedRaw t r2 = true)
    (bFn : Nat → Nat → Nat) :
    r1.bitBinOp r2 t bFn =
      some (Raw.fromBytes
        (List.zipWith bFn ((r1.toBytes t).getD []) ((r2.toBytes t).getD [])) t) := by
  obtain ⟨b1, h1, hl1, _, _⟩ := toBytes_of_wellFormed t r1 hbit hwf1
  obtain ⟨b2, h2, hl2, _, _⟩ := toBytes_of_wellFormed t r2 hbit hwf2
  unfold Raw.bitBinOp
  rw [h1, h2]
  show (if b1.length = b2.length then _ else _) = _
  rw [if_pos (hl1.trans hl2.symm)]
  simp [h1, h2]

theorem tupleBitBinOp_wf (bFn : Nat → Nat → Nat) :
    ∀ (meta : List DataType) (t1 t2 : Tuple),
    meta.all metaBitOp = true →
    wellFormedTuple meta t1 = true → wellFormedTuple meta t2 = true →
    tupleBitBinOp t1 t2 meta bFn =
      some (List.zipWith3 (fun (r1 r2 : Raw) (dt : DataType) =>
        Raw.fromBytes
          (List.zipWith bFn ((r1.toBytes dt).getD []) ((r2.toBytes dt).getD [])) dt)
        t1 t2 meta) := by
  intro meta
  induction meta with
  | nil =>
    intro t1 t2 _ hwf1 hwf2
    cases t1 with
    | nil => rfl
    | cons r rs => simp [wellFormedTuple] at hwf1
  | cons dt dts ih =>
    intro t1 t2 hbit hwf1 hwf2
    cases t1 with
    | nil => simp [wellFormedTuple] at hwf1
    | cons r1 rs1 =>
      cases t2 with
      | nil => simp [wellFormedTuple] at hwf2
      | cons r2 rs2 =>
        rw [List.all_cons, Bool.and_eq_true] at hbit
        rw [wellFormedTuple, Bool.and_eq_true] at hwf1 hwf2
        rw [tupleBitBinOp, Raw.bitBinOp_wf hbit.1 hwf1.1 hwf2.1 bFn,
          ih rs1 rs2 hbit.2 hwf1.2 hwf2.2]
        rfl

theorem bitBinRows_wf (bFn : Nat → Nat → Nat) (meta : List DataType)
    (hbit : meta.all metaBitOp = true) :
    ∀ (n : Nat) (d1 d2 : List Tuple), d1.length = n → d2.length = n →
    (∀ t ∈ d1, wellFormedTuple meta t = true) →
    (∀ t ∈ d2, wellFormedTuple meta t = true) →
    bitBinRows meta bFn d1 d2 n =
      some (List.zipWith (fun t1 t2 =>
        List.zipWith3 (fun (r1 r2 : Raw) (dt : DataType) =>
          Raw.fromBytes
            (List.zipWith bFn ((r1.toBytes dt).getD []) ((r2.toBytes dt).getD [])) dt)
          t1 t2 meta) d1 d2) := by
  intro n
  induction n with
  | zero =>
    intro d1 d2 h1 h2 _ _
    rw [List.length_eq_zero] at h1 h2
    subst h1
    subst h2
    rfl
  | succ n ih =>
    intro d1 d2 h1 h2 hwf1 hwf2
    cases d1 with
    | nil => simp at h1
    | cons t1 ds1 =>
      cases d2 with
      | nil => simp at h2
      | cons t2 ds2 =>
        have hwf1h := hwf1 t1 (List.mem_cons_self _ _)
        have hwf2h := hwf2 t2 (List.mem_cons_self _ _)
        rw [bitBinRows, tupleBitBinOp_wf bFn meta t1 t2 hbit hwf1h hwf2h,
          ih ds1 ds2 (by simpa using h1) (by simpa using h2)
            (fun t ht => hwf1 t (List.mem_cons_of_mem _ ht))
            (fun t ht => hwf2 t (List.mem_cons_of_mem _ ht))]
        rfl

/-- C5 (claim theorem): over two well-typed bit-operable operands the
binary bitwise evaluators succeed and produce the byte-wise combination
of the canonical encodings, column by column and row by row, with the
schema of the first operand; over two single-row columns of the 8-bit
unsigned type holding 10 and 12, AND, OR and XOR yield 8, 14 and 6. -/
theorem claim_C5_bitops_bytewise (ctx : Context) (n : Nat) (op1 op2 : Operand)
    (hmeta : op1.meta = op2.meta) (hbit : metaAllBitOp op1 = true)
    (hwf1 : wellFormedOperand op1 = true) (hwf2 : wellFormedOperand op2 = true)
    (hlen : op1.data.length = op2.data.length) :
    (fnBitAnd ctx { input := [op1, op2] } n = .ok (specBitResult byteAnd op1 op2)
      ∧ fnBitOr ctx { input := [op1, op2] } n = .ok (specBitResult byteOr op1 op2)
      ∧ fnBitXor ctx { input := [op1, op2] } n = .ok (specBitResult byteXor op1 op2))
    ∧ (fnBitAnd ctx0 { input := [op8a, op8b] } 1
          = .ok { meta := [uint8T], data := [[{ value := 8 }]] }
      ∧ fnBitOr ctx0 { input := [op8a, op8b] } 1
          = .ok { meta := [uint8T], data := [[{ value := 14 }]] }
      ∧ fnBitXor ctx0 { input := [op8a, op8b] } 1
          = .ok { meta := [uint8T], data := [[{ value := 6 }]] }) := by
  have hex := @extractOps_cons_ok op1 op2 ([] : List Operand) hmeta hbit
  have hfold : (([op1, op2]).map (fun op => op.data.length)).foldl max 0
      = op1.data.length := by
    simp only [List.map, List.foldl, ← hlen]
    omega
  have hballmeta : op1.meta.all metaBitOp = true := hbit
  have hrows1 : ∀ t ∈ op1.data, wellFormedTuple op1.meta t = true := by
    intro t ht
    exact List.all_eq_true.mp hwf1 t ht
  have hrows2 : ∀ t ∈ op2.data, wellFormedTuple op1.meta t = true := by
    intro t ht
    rw [hmeta]
    exact List.all_eq_true.mp hwf2 t ht
  have hrows : ∀ bFn : Nat → Nat → Nat,
      bitBinRows op1.meta bFn op1.data op2.data op1.data.length =
        some (List.zipWith (fun t1 t2 =>
          List.zipWith3 (fun (r1 r2 : Raw) (dt : DataType) =>
            Raw.fromBytes
              (List.zipWith bFn ((r1.toBytes dt).getD []) ((r2.toBytes dt).getD [])) dt)
            t1 t2 op1.meta) op1.data op2.data) := fun bFn =>
    bitBinRows_wf bFn op1.meta hballmeta op1.data.length op1.data op2.data rfl
      hlen.symm hrows1 hrows2
  refine ⟨⟨?_, ?_, ?_⟩, ?_, ?_, ?_⟩
  · show (match extractOps [op1, op2] with
      | Except.error e => Except.error e
      | Except.ok (n, o1, o2) =>
        match bitBinRows o1.meta byteAnd o1.data o2.data n with
        | some rows => Except.ok { o1.clone true with data := rows }
        | none => Except.error RunErr.fault) = _
    rw [hex, hfold]
    show (match bitBinRows op1.meta byteAnd op1.data op2.data op1.data.length with
      | some rows => Except.ok { op1.clone true with data := rows }
      | none => Except.error RunErr.fault) = _
    rw [hrows byteAnd]
    rfl
  · show (match extractOps [op1, op2] with
      | Except.error e => Except.error e
      | Except.ok (n, o1, o2) =>
        match bitBinRows o1.meta byteOr o1.data o2.data n with
        | some rows => Except.ok { o1.clone true with data := rows }
        | none => Except.error RunErr.fault) = _
    rw [hex, hfold]
    show (match bitBinRows op1.meta byteOr op1.data op2.data op1.data.length with
      | some rows => Except.ok { op1.clone true with data := rows }
      | none => Except.error RunErr.fault) = _
    rw [hrows byteOr]
    rfl
  · show (match extractOps [op1, op2] with
      | Except.error e => Except.error e
      | Except.ok (n, o1, o2) =>
        match bitBinRows o1.meta byteXor o1.data o2.data n with
        | some rows => Except.ok { o1.clone true with data := rows }
        | none => Except.error RunErr.fault) = _
    rw [hex, hfold]
    show (match bitBinRows op1.meta byteXor op1.data op2.data op1.data.length with
      | some rows => Except.ok { op1.clone true with data := rows }
      | none => Except.error RunErr.fault) = _
    rw [hrows byteXor]
    rfl
  · rfl
  · rfl
  · rfl

/-- Witness for C5 at the two concrete single-row 8-bit operands. -/
theorem claim_C5_witness :
    fnBitAnd ctx0 { input := [op8a, op8b] } 1 = .ok (specBitResult byteAnd op8a op8b)
    ∧ fnBitOr ctx0 { input := [op8a, op8b] } 1 = .ok (specBitResult byteOr op8a op8b)
    ∧ fnBitXor ctx0 { input := [op8a, op8b] } 1 = .ok (specBitResult byteXor op8a op8b) :=
  (claim_C5_bitops_bytewise ctx0 1 op8a op8b rfl (by decide) (by decide) (by decide)
    rfl).1

/-! ## C7: octet-length -/

/-- C7 (claim theorem): over an operand whose columns are all
byte-sequence-valued, octet-length succeeds, replaces every schema
column with the wide unsigned-integer type, keeps one output row per
input row and outputs the byte length of every input value; an operand
with a non-byte-sequence-valued column fails with invalid-data-type. -/
theorem claim_C7_octet_length :
    (∀ (ctx : Context) (inst : Instruction) (n : Nat) (op : Operand)
        (rest : List Operand),
      inst.input = op :: rest → metaAllDynBytes op = true →
      fnOctetLength ctx inst n =
        .ok { meta := List.replicate op.meta.length uint256T,
              data := op.data.map (fun t =>
                t.map (fun r => { value := (r.bytes.length : Int) })) }
      ∧ uint256T.major = DataTypeMajor.uint)
    ∧ (∀ (ctx : Context) (inst : Instruction) (n : Nat) (op : Operand)
        (rest : List Operand),
      inst.input = op :: rest → metaAllDynBytes op = false →
      fnOctetLength ctx inst n = .error (.user .invalidDataType)) := by
  constructor
  · intro ctx inst n op rest hin h
    refine ⟨?_, rfl⟩
    unfold fnOctetLength
    rw [hin, if_neg (by simp)]
    show (if metaAllDynBytes op then _ else _) = _
    rw [if_pos h]
  · intro ctx inst n op rest hin h
    unfold fnOctetLength
    rw [hin, if_neg (by simp)]
    show (if metaAllDynBytes op then _ else _) = _
    rw [if_neg (by simp [h])]

/-- A concrete byte-sequence operand for witnesses. -/
def opBytes3 : Operand := { meta := [dynBytesT], data := [[{ bytes := [1, 2, 3] }]] }

/-- Witness for C7 at a concrete one-column three-byte operand. -/
theorem claim_C7_witness :
    fnOctetLength ctx0 { input := [opBytes3] } 1 =
      .ok { meta := List.replicate opBytes3.meta.length uint256T,
            data := opBytes3.data.map (fun t =>
              t.map (fun r => { value := (r.bytes.length : Int) })) }
    ∧ uint256T.major = DataTypeMajor.uint :=
  claim_C7_octet_length.1 ctx0 { input := [opBytes3] } 1 opBytes3 [] rfl (by decide)

/-! ## C3, C8, C9: substring -/

/-- Concrete operands for the substring claims. -/
def badNumOp : Operand := { meta := [uint8T], data := [[{ value := 7 }]] }

def scalar0 : Operand := { isImmediate := true, meta := [uint8T], data := [[{ value := 0 }]] }

def scalar5 : Operand := { isImmediate := true, meta := [uint8T], data := [[{ value := 5 }]] }

def scalar6 : Operand := { isImmediate := true, meta := [uint8T], data := [[{ value := 6 }]] }

/-- The byte string of b"hello world". -/
def hwOp : Operand :=
  { meta := [dynBytesT],
    data := [[{ bytes := [104, 101, 108, 108, 111, 32, 119, 111, 114, 108, 100] }]] }

/-- A two-row byte-sequence operand. -/
def twoRowsOp : Operand :=
  { meta := [dynBytesT], data := [[{ bytes := [1, 2] }], [{ bytes := [3, 4] }]] }

/-- A start operand spread across two rows with two distinct values. -/
def start2rows : Operand :=
  { meta := [uint8T], data := [[{ value := 6 }], [{ value := 7 }]] }

/-- C3 (code-bug theorem): a substring call whose source operand has a
column that is not byte-sequence-valued does NOT fail — the source sets
the invalid-data-type error without returning and the error variable is
overwritten by the start-argument conversion, so with scalar start 0 and
length 0 the call returns a successful empty result. -/
theorem claim_C3_type_error_dropped :
    metaAllDynBytes badNumOp = false
    ∧ fnSubString ctx0 { input := [badNumOp, scalar0, scalar0] } 1
        = .ok { meta := [dynBytesT], data := [[{ bytes := [] }]] } := by
  constructor
  · rfl
  · rfl

theorem sliceTuple_ok (a b : Nat) (hab : a ≤ b) :
    ∀ t : Tuple, (∀ r ∈ t, b ≤ r.bytes.length) →
    sliceTuple t a b = some (t.map (fun r => { bytes := (r.bytes.drop a).take (b - a) })) := by
  intro t
  induction t with
  | nil => intro _; rfl
  | cons r rs ih =>
    intro h
    have hr := h r (List.mem_cons_self _ _)
    rw [sliceTuple, goSlice, if_pos ⟨hab, hr⟩,
      ih (fun x hx => h x (List.mem_cons_of_mem _ hx))]
    rfl

theorem sliceRows_ok (a b : Nat) (hab : a ≤ b) :
    ∀ d : List Tuple, (∀ t ∈ d, ∀ r ∈ t, b ≤ r.bytes.length) →
    sliceRows d a b = some (d.map (fun t =>
      t.map (fun r => { bytes := (r.bytes.drop a).take (b - a) }))) := by
  intro d
  induction d with
  | nil => intro _; rfl
  | cons t ds ih =>
    intro h
    rw [sliceRows, sliceTuple_ok a b hab t (h t (List.mem_cons_self _ _)),
      ih (fun x hx => h x (List.mem_cons_of_mem _ hx))]
    rfl

theorem sliceTuple_fault (a b : Nat) :
    ∀ t : Tuple, (∃ r ∈ t, r.bytes.length < b) →
    sliceTuple t a b = none := by
  intro t
  induction t with
  | nil => intro h; simp at h
  | cons r rs ih =>
    intro h
    rcases h with ⟨r2, hr2, hlt⟩
    rcases List.mem_cons.mp hr2 with rfl | hmem
    · rw [sliceTuple, goSlice, if_neg (by omega)]
    · rw [sliceTuple, ih ⟨r2, hmem, hlt⟩]
      cases goSlice r.bytes a b <;> rfl

theorem sliceRows_fault (a b : Nat) :
    ∀ d : List Tuple, (∃ t ∈ d, ∃ r ∈ t, r.bytes.length < b) →
    sliceRows d a b = none := by
  intro d
  induction d with
  | nil => intro h; simp at h
  | cons t ds ih =>
    intro h
    rcases h with ⟨t2, ht2, hex⟩
    rcases List.mem_cons.mp ht2 with heq | hmem
    · have hex2 : ∃ r ∈ t, r.bytes.length < b := heq ▸ hex
      rw [sliceRows, sliceTuple_fault a b t hex2]
    · rw [sliceRows, ih ⟨t2, hmem, hex⟩]
      cases sliceTuple t a b <;> rfl

/-- Unfolding equation of fnSubString at a three-or-more-operand call. -/
theorem fnSubString_eq (ctx : Context) (inst : Instruction) (n : Nat)
    (op a b : Operand) (rest : List Operand) (hin : inst.input = op :: a :: b :: rest) :
    fnSubString ctx inst n =
      (match a.toUint64 with
       | Except.error e => Except.error e
       | Except.ok starts =>
          if starts.length ≠ 1 then Except.error (RunErr.user ErrorCode.indexOutOfRange)
          else
            match b.toUint64 with
            | Except.error e => Except.error e
            | Except.ok lens =>
                if lens.length ≠ 1 then Except.error (RunErr.user ErrorCode.indexOutOfRange)
                else
                  match sliceRows op.data (starts.headD 0)
                      ((starts.headD 0 + lens.headD 0) % 2 ^ 64) with
                  | some rows =>
                      Except.ok { meta := List.replicate op.meta.length dynBytesT,
                                  data := rows }
                  | none => Except.error RunErr.fault) := by
  unfold fnSubString
  rw [hin, if_neg (by simp)]

/-- C8 (claim theorem): a substring call whose start argument or length
argument resolves to more than one distinct 64-bit unsigned value fails
with the index-out-of-range error; in particular a start argument spread
across two rows with different values fails. -/
theorem claim_C8_substring_scalar_args :
    (∀ (ctx : Context) (inst : Instruction) (n : Nat) (op a b : Operand)
        (rest : List Operand) (vs : List Nat),
      inst.input = op :: a :: b :: rest →
      a.toUint64 = .ok vs → 1 < vs.length →
      fnSubString ctx inst n = .error (.user .indexOutOfRange))
    ∧ (∀ (ctx : Context) (inst : Instruction) (n : Nat) (op a b : Operand)
        (rest : List Operand) (x : Nat) (ws : List Nat),
      inst.input = op :: a :: b :: rest →
      a.toUint64 = .ok [x] → b.toUint64 = .ok ws → 1 < ws.length →
      fnSubString ctx inst n = .error (.user .indexOutOfRange))
    ∧ fnSubString ctx0 { input := [twoRowsOp, start2rows, scalar5] } 2
        = .error (.user .indexOutOfRange) := by
  refine ⟨?_, ?_, rfl⟩
  · intro ctx inst n op a b rest vs hin ha hvs
    rw [fnSubString_eq ctx inst n op a b rest hin, ha]
    show (if vs.length ≠ 1 then _ else _) = _
    rw [if_pos (by omega)]
  · intro ctx inst n op a b rest x ws hin ha hb hws
    rw [fnSubString_eq ctx inst n op a b rest hin, ha]
    show (if ([x] : List Nat).length ≠ 1 then _ else _) = _
    rw [if_neg (by simp), hb]
    show (if ws.length ≠ 1 then _ else _) = _
    rw [if_pos (by omega)]

/-- Witness for C8: a start operand with rows 6 and 7 resolves to two
distinct values and the call fails with index-out-of-range. -/
theorem claim_C8_witness :
    fnSubString ctx0 { input := [twoRowsOp, start2rows, scalar5] } 2
      = .error (.user .indexOutOfRange) :=
  claim_C8_substring_scalar_args.1 ctx0 { input := [twoRowsOp, start2rows, scalar5] } 2
    twoRowsOp start2rows scalar5 [] [6, 7] rfl rfl (by decide)

/-- Unfolding equation of fnSubString when both the start and the length
argument resolve to single scalars. -/
theorem fnSubString_scalar_eq (ctx : Context) (inst : Instruction) (n : Nat)
    (op a b : Operand) (rest : List Operand) (st ln : Nat)
    (hin : inst.input = op :: a :: b :: rest)
    (ha : a.toUint64 = .ok [st]) (hb : b.toUint64 = .ok [ln]) :
    fnSubString ctx inst n =
      (match sliceRows op.data st ((st + ln) % 2 ^ 64) with
       | some rows =>
           Except.ok { meta := List.replicate op.meta.length dynBytesT, data := rows }
       | none => Except.error RunErr.fault) := by
  rw [fnSubString_eq ctx inst n op a b rest hin, ha]
  show (if ([st] : List Nat).length ≠ 1 then _ else _) = _
  rw [if_neg (by simp), hb]
  show (if ([ln] : List Nat).length ≠ 1 then _ else _) = _
  rw [if_neg (by simp)]
  rfl

/-- C9 (claim theorem): with scalar start and length, every row whose
source byte length is at least start+length yields the half-open byte
range [start, start+length); a row with a shorter source does not yield
a user error but aborts the evaluation with the slice-bounds fault; and
substring of b"hello world" at start 6, length 5 is b"world". -/
theorem claim_C9_substring_range (ctx : Context) (inst : Instruction) (n : Nat)
    (op a b : Operand) (rest : List Operand) (st ln : Nat)
    (hin : inst.input = op :: a :: b :: rest)
    (ha : a.toUint64 = .ok [st]) (hb : b.toUint64 = .ok [ln])
    (hno : st + ln < 2 ^ 64) :
    ((∀ t ∈ op.data, ∀ r ∈ t, st + ln ≤ r.bytes.length) →
      fnSubString ctx inst n =
        .ok { meta := List.replicate op.meta.length dynBytesT,
              data := op.data.map (fun t =>
                t.map (fun r => { bytes := (r.bytes.drop st).take ln })) })
    ∧ ((∃ t ∈ op.data, ∃ r ∈ t, r.bytes.length < st + ln) →
      fnSubString ctx inst n = .error .fault)
    ∧ fnSubString ctx0 { input := [hwOp, scalar6, scalar5] } 1
        = .ok { meta := [dynBytesT], data := [[{ bytes := [119, 111, 114, 108, 100] }]] } := by
  refine ⟨?_, ?_, rfl⟩
  · intro hall
    rw [fnSubString_scalar_eq ctx inst n op a b rest st ln hin ha hb,
      Nat.mod_eq_of_lt hno, sliceRows_ok st (st + ln) (by omega) op.data hall,
      Nat.add_sub_cancel_left]
  · intro hex
    rw [fnSubString_scalar_eq ctx inst n op a b rest st ln hin ha hb,
      Nat.mod_eq_of_lt hno, sliceRows_fault st (st + ln) op.data hex]

/-- Witness for C9 at the hello-world call. -/
theorem claim_C9_witness :
    fnSubString ctx0 { input := [hwOp, scalar6, scalar5] } 1 =
      .ok { meta := List.replicate hwOp.meta.length dynBytesT,
            data := hwOp.data.map (fun t =>
              t.map (fun r => { bytes := (r.bytes.drop 6).take 5 })) } :=
  (claim_C9_substring_range ctx0 { input := [hwOp, scalar6, scalar5] } 1
    hwOp scalar6 scalar5 [] 6 5 rfl rfl rfl (by norm_num)).1 (by decide)

/-! ## C2: the randomness function -/

theorem randLoop_spec (ctx : Context) (nbuf : List Nat) :
    ∀ (N j c : Nat), j ≤ c → c + N < 2 ^ 64 →
    randLoop ctx nbuf (padUvarint j) c N =
      ((List.range N).map (fun i => [randValueAux ctx nbuf (c + i)]), c + N) := by
  intro N
  induction N with
  | zero =>
    intro j c hj hc
    simp [randLoop]
  | succ N ih =>
    intro j c hj hc
    rw [randLoop]
    have hbuf : putUvarint (padUvarint j) c = padUvarint c :=
      putUvarint_pad (uvarint_length_mono c j hj)
    have hc1 : (c + 1) % 2 ^ 64 = c + 1 := Nat.mod_eq_of_lt (by omega)
    simp only [hbuf, hc1, ih c (c + 1) (by omega) (by omega)]
    rw [Prod.mk.injEq]
    constructor
    · rw [List.range_succ_eq_map, List.map_cons, List.map_map]
      have hfun : (fun i => [randValueAux ctx nbuf (c + 1 + i)])
          = ((fun i => [randValueAux ctx nbuf (c + i)]) ∘ Nat.succ) := by
        funext i
        have hadd : c + 1 + i = c + Nat.succ i := by omega
        simp [Function.comp, hadd]
      rw [hfun]
      simp [randValueAux]
    · omega

/-- Unfolding equation of fnRand: with the usage counter at `k` and no
counter wraparound, the call produces one derived row per output index
`k, k+1, ..., k+N-1` and leaves the counter at `k + N`. -/
theorem fnRand_eq (ctx : Context) (inst : Instruction) (N k : Nat)
    (hk : ctx.randCallIndex = k) (hN : k + N < 2 ^ 64) :
    fnRand ctx inst N =
      (.ok { meta := [uint31T],
             data := (List.range N).map (fun i => [randValueAt ctx (k + i)]) },
       { ctx with randCallIndex := k + N }) := by
  unfold fnRand
  simp only []
  rw [putUvarint_zeros, hk, show (List.replicate 10 0 : List Nat) = padUvarint 0
      from padUvarint_zero.symm,
    randLoop_spec ctx (padUvarint (ctx.getNonce ctx.origin)) N 0 k (Nat.zero_le _) hN]
  rfl

/-- C2 (claim theorem): every fnRand output value is the Keccak-256 hash
of the randomness seed, the origin address, the varint-encoded origin
nonce and the varint-encoded usage index, decoded as a 256-bit unsigned
integer; a call of batch length N starting at counter k consumes the
pairwise-distinct indices k..k+N-1, leaves the counter at k+N, and any
context agreeing on seed, origin, nonce and hash function with the same
starting counter produces the identical output sequence. -/
theorem claim_C2_rand_derivation (ctx : Context) (inst : Instruction) (N k : Nat)
    (hk : ctx.randCallIndex = k) (hN : k + N < 2 ^ 64) :
    (fnRand ctx inst N).1 =
      .ok { meta := [uint31T],
            data := (List.range N).map (fun i => [randValueAt ctx (k + i)]) }
    ∧ (fnRand ctx inst N).2.randCallIndex = k + N
    ∧ (∀ i j : Nat, i < N → j < N → i ≠ j → k + i ≠ k + j)
    ∧ (∀ (ctx2 : Context) (inst2 : Instruction),
        ctx2.randomness = ctx.randomness → ctx2.origin = ctx.origin →
        ctx2.getNonce ctx2.origin = ctx.getNonce ctx.origin →
        ctx2.keccak = ctx.keccak → ctx2.randCallIndex = k →
        (fnRand ctx2 inst2 N).1 = (fnRand ctx inst N).1) := by
  have he := fnRand_eq ctx inst N k hk hN
  refine ⟨by rw [he], by rw [he], fun i j _ _ hij => by omega, ?_⟩
  intro ctx2 inst2 h1 h2 h3 h4 h5
  have he2 := fnRand_eq ctx2 inst2 N k h5 hN
  rw [he, he2]
  have hval : ∀ m : Nat, randValueAt ctx2 m = randValueAt ctx m := by
    intro m
    unfold randValueAt randValueAux
    rw [h3, h4, h1, h2]
  simp only [hval]

/-- A concrete context for the C2 witness. -/
def ctxRand : Context :=
  { origin := [1], randomness := [9], randCallIndex := 5,
    getNonce := fun _ => 300,
    keccak := fun l => [l.length % 256, 7] }

/-- Witness for C2 at a three-row call starting at counter 5. -/
theorem claim_C2_witness :
    (fnRand ctxRand { input := [] } 3).1 =
      .ok { meta := [uint31T],
            data := (List.range 3).map (fun i => [randValueAt ctxRand (5 + i)]) }
    ∧ (fnRand ctxRand { input := [] } 3).2.randCallIndex = 5 + 3 :=
  ⟨(claim_C2_rand_derivation ctxRand { input := [] } 3 5 rfl (by norm_num)).1,
   (claim_C2_rand_derivation ctxRand { input := [] } 3 5 rfl (by norm_num)).2.1⟩
